import Mathlib

/-!
Shallow embedding of the `fasttext_blog` notebook: a FastText-style
knowledge-graph embedding pipeline.  The notebook loads a triples file
(`families.csv`, 112 rows per the recorded cell output), builds an entity
vocabulary with a Keras `Tokenizer`, one-hot encodes relations with
`pd.get_dummies`, oversamples the dataset for 20 iterations with
`df.sample(frac=0.3)` + `append`, splits with two nested
`train_test_split(test_size=0.1)` calls, and trains an
`Embedding → GlobalAveragePooling1D → Dense(12) → sigmoid` model, finally
plotting each entity's embedding row `entities_index.get(word) - 1`.

Python/NumPy/Keras/pandas primitives are translated to Lean at the
`List Char` / `Nat` / `ℚ` / `ℝ` level: string handling and all counting
is executable, while the layer algebra over reals is a direct
transcription of the notebook's forward computation.
-/

namespace FasttextBlog

/-! ### String primitives

Python `str.lower` (ASCII range, which covers the dataset's entity codes)
and the `split(" ")` used by Keras `text_to_word_sequence`, which drops
empty chunks after splitting. -/

/-- ASCII lowercasing of a character list: Python `str.lower()` on the
dataset's ASCII entity strings. -/
def lowerChars (cs : List Char) : List Char := cs.map Char.toLower

/-- Python `str.lower()` for ASCII strings, at the `String` level. -/
def toLowerStr (s : String) : String := String.mk (lowerChars s.data)

/-- Helper for splitting a character list at spaces, accumulating the
current chunk in reverse; empty chunks are dropped, matching Keras
`text_to_word_sequence` which filters out empty strings after
`text.split(split)`. -/
def splitChunksAux : List Char → List Char → List (List Char)
  | [], acc => if acc = [] then [] else [acc.reverse]
  | c :: cs, acc =>
      if c = ' ' then
        (if acc = [] then splitChunksAux cs [] else acc.reverse :: splitChunksAux cs [])
      else splitChunksAux cs (c :: acc)

/-- Split a character list on the space separator, dropping empty chunks. -/
def splitChunks (cs : List Char) : List (List Char) := splitChunksAux cs []

/-- Keras `text_to_word_sequence(text, filters='', split=" ")` with the
default `lower=True`: lowercase, split on `" "`, drop empty chunks.  This
is what `Tokenizer.fit_on_texts` applies to each entity string. -/
def tokensOf (s : String) : List String := (splitChunks (lowerChars s.data)).map String.mk

/-! ### np.unique

`np.unique(families[['head', 'tail']].values)` returns the distinct entity
strings in sorted (codepoint-lexicographic) order. -/

/-- Codepoint-lexicographic order on character lists, NumPy's string sort
order for the ASCII dataset. -/
def lexLe : List Char → List Char → Bool
  | [], _ => true
  | _ :: _, [] => false
  | a :: as, b :: bs => if a < b then true else if b < a then false else lexLe as bs

/-- Lexicographic `≤` on strings via their character lists. -/
def strLe (a b : String) : Bool := lexLe a.data b.data

/-- `np.unique`: the distinct values of a string list in sorted order. -/
def npUnique (l : List String) : List String :=
  List.insertionSort (fun a b => strLe a b = true) l.dedup

/-! ### The triples file and the entity set -/

/-- One row of `families.csv`: `(head, relation, tail)`. -/
structure Triple where
  head : String
  relation : String
  tail : String
deriving DecidableEq

/-- The flattened `families[['head', 'tail']].values`: every string
appearing as head or tail of some triple. -/
def entityStrings (ts : List Triple) : List String :=
  ts.map Triple.head ++ ts.map Triple.tail

/-- `entities = np.unique(families[['head', 'tail']].values)`. -/
def entities (ts : List Triple) : List String := npUnique (entityStrings ts)

/-! ### The Keras Tokenizer vocabulary

`t = Tokenizer(len(entities), filters='', split=" "); t.fit_on_texts(list(entities))`
collects word counts over the tokenized texts in first-occurrence order,
then `word_index` assigns 1-based indices after a stable sort by count,
descending (Python `sorted(..., reverse=True)` on an ordered dict is
stable, so ties keep first-occurrence order). -/

/-- The token stream `fit_on_texts` sees: each text tokenized and
concatenated, in order. -/
def fitTokens (texts : List String) : List String := texts.flatMap tokensOf

/-- `Tokenizer.word_counts`: distinct tokens in first-occurrence order,
each paired with its number of occurrences. -/
def wordCounts (ws : List String) : List (String × Nat) :=
  ws.dedup.map (fun w => (w, ws.count w))

/-- The stable descending sort by count used to build `word_index`. -/
def sortByCountDesc (l : List (String × Nat)) : List (String × Nat) :=
  List.insertionSort (fun x y => y.2 ≤ x.2) l

/-- The words of `Tokenizer.word_index` in index order: position `i` holds
the word with index `i + 1`. -/
def wordIndexList (texts : List String) : List String :=
  (sortByCountDesc (wordCounts (fitTokens texts))).map Prod.fst

/-- `len(entities_index.keys())`: the vocabulary size, used by the
notebook as the `Embedding` layer's `input_dim`. -/
def vocabSize (texts : List String) : Nat := (wordIndexList texts).length

/-- `entities_index.get(w)`: Python `dict.get` on `Tokenizer.word_index`.
Returns the 1-based index of a known word and `none` (Python `None`) for
an absent key — `dict.get` has no error path. -/
def entitiesIndexGet (texts : List String) (w : String) : Option Nat :=
  if w ∈ wordIndexList texts then some ((wordIndexList texts).indexOf w + 1) else none

/-- The notebook's encoder cell: `entities_index.get(str(x).lower())`,
applied via `applymap` to each head/tail string of the dataframe. -/
def encodeEntity (texts : List String) (x : String) : Option Nat :=
  entitiesIndexGet texts (toLowerStr x)

/-- The visualization cell reads the embedding row
`embeddings[entities_index.get(word) - 1, :]`: the matrix row consulted
for a word is its vocabulary index minus one. -/
def visRowOf (texts : List String) (w : String) : Option Nat :=
  (entitiesIndexGet texts w).map (fun i => i - 1)

/-! ### One-hot relation encoding

`df = pd.get_dummies(families, columns=['relation'])` adds one binary
indicator column per distinct relation value (categories in sorted order,
matching the recorded `relation_au … relation_so` column output). -/

/-- The distinct relation values, in `pd.get_dummies` category order. -/
def relationCategories (rels : List String) : List String := npUnique rels

/-- One dataframe row's relation indicator columns: `1` in the column of
its relation value, `0` elsewhere. -/
def oneHotRow (cats : List String) (r : String) : List Nat :=
  cats.map (fun c => if c = r then 1 else 0)

/-! ### Oversampling augmentation

```
for i in range(20):
    sample = df.sample(frac=0.3).reset_index(drop=True)
    df = df.append(sample, ignore_index=True)
```

`df.sample(frac=0.3)` draws `round(0.3 * len(df))` rows, where `round` is
Python's banker's rounding; on the sizes reachable here the float product
`0.3 * n` rounds to the same value as the exact rational `3n/10`, and this
model reproduces the notebook's recorded growth `112 → 21367` exactly. -/

/-- `round(0.3 * n)`: banker's rounding of `3n/10`, computed on `Nat`
(quotient `q`, remainder `r` by 10; halves, `r = 5`, round to even `q`). -/
def sampleCount (n : Nat) : Nat :=
  let q := 3 * n / 10
  let r := 3 * n % 10
  if r < 5 then q else if 5 < r then q + 1 else if q % 2 = 0 then q else q + 1

/-- One augmentation iteration: append a `sampleCount`-sized sample of the
current accumulated dataframe. -/
def augStep (n : Nat) : Nat := n + sampleCount n

/-- The dataset size after `k` augmentation iterations starting from `n`
rows. -/
def augIter : Nat → Nat → Nat
  | 0, n => n
  | k + 1, n => augStep (augIter k n)

/-- The size trajectory of the 20-iteration augmentation loop: sizes after
0, 1, …, 20 iterations. -/
def augSizes (n : Nat) : List Nat := (List.range 21).map (fun k => augIter k n)

/-! ### Train/validation/test split

```
df = df.sample(frac=1)
tmp, test_data = train_test_split(df, test_size=0.1)
training_data, validation_data = train_test_split(tmp, test_size=0.1)
```

`train_test_split` with float `test_size=0.1` takes
`n_test = ceil(0.1 * n)` rows for the test side and the remaining
`n - n_test` for the train side, drawing both from a fresh random
permutation of the input's rows.  On `Nat`, `ceil(n/10) = (n + 9) / 10`
(the float product `0.1 * n` rounds to a double with the same ceiling).
We model the permuted row-label order as an explicit argument. -/

/-- `ceil(0.1 * n)` as computed by sklearn's split size validation. -/
def testCount (n : Nat) : Nat := (n + 9) / 10

/-- The test side of one `train_test_split`: the first `testCount` row
labels of the permuted order. -/
def splitTest (shuffled : List Nat) : List Nat :=
  shuffled.take (testCount shuffled.length)

/-- The train side of one `train_test_split`: the remaining row labels. -/
def splitRest (shuffled : List Nat) : List Nat :=
  shuffled.drop (testCount shuffled.length)

/-! ### The model

`Embedding(input_dim=N, output_dim=200) → GlobalAveragePooling1D →
Dense(12) → Activation('sigmoid')`, fed batches of `(head, tail)` index
pairs.  The embedding lookup, `tf.gather` under the hood, is modelled from
the spec (Keras/TensorFlow library code is not in src): an index outside
`[0, numRows)` raises an `OutOfRange`/`InvalidArgument` error, here
`none`; it is not clamped to a valid row. -/

/-- Modelled from the spec: the Keras `Embedding` row lookup.  Missing
from src (keras library code); the spec fixes its failure semantics —
"an index presented to the embedding lookup exceeds the matrix's row
count → fatal, … must not be silently clamped".  In-range indices return
their matrix row; out-of-range indices fail. -/
def embLookup (numRows dim : Nat) (M : Nat → Fin dim → ℝ) (i : Nat) :
    Option (Fin dim → ℝ) :=
  if i < numRows then some (M i) else none

/-- `GlobalAveragePooling1D` over the two looked-up entity vectors:
elementwise mean. -/
noncomputable def averagePool (dim : Nat) (v w : Fin dim → ℝ) : Fin dim → ℝ :=
  fun d => (v d + w d) / 2

/-- `Dense(12)`: affine projection of the pooled vector to one logit per
relation. -/
noncomputable def denseLayer (dim nOut : Nat) (W : Fin nOut → Fin dim → ℝ)
    (b : Fin nOut → ℝ) (x : Fin dim → ℝ) : Fin nOut → ℝ :=
  fun r => (∑ d, W r d * x d) + b r

/-- `Activation('sigmoid')`, elementwise. -/
noncomputable def sigmoid (x : ℝ) : ℝ := 1 / (1 + Real.exp (-x))

/-- The full forward computation on one `(head, tail)` index pair:
embedding lookups, average pooling, dense projection, sigmoid.  A failed
lookup aborts the computation. -/
noncomputable def forwardScores (numRows dim nOut : Nat) (M : Nat → Fin dim → ℝ)
    (W : Fin nOut → Fin dim → ℝ) (b : Fin nOut → ℝ) (h t : Nat) :
    Option (Fin nOut → ℝ) :=
  match embLookup numRows dim M h, embLookup numRows dim M t with
  | some vh, some vt =>
      some (fun r => sigmoid (denseLayer dim nOut W b (averagePool dim vh vt) r))
  | _, _ => none

/-- The forward computation over a training batch, row by row; the first
failed lookup aborts the whole batch, so the error terminates the run. -/
noncomputable def batchForwardScores (numRows dim nOut : Nat)
    (M : Nat → Fin dim → ℝ) (W : Fin nOut → Fin dim → ℝ) (b : Fin nOut → ℝ) :
    List (Nat × Nat) → Option (List (Fin nOut → ℝ))
  | [] => some []
  | p :: ps =>
      match forwardScores numRows dim nOut M W b p.1 p.2,
            batchForwardScores numRows dim nOut M W b ps with
      | some s, some rest => some (s :: rest)
      | _, _ => none

/-! ### Weight initialization randomness

The notebook constructs the embedding initializer as
`RandomUniform(minval=-0.05, maxval=0.05, seed=None)`, and its
`df.sample`, `train_test_split` and `model.fit(shuffle=True)` calls all
run without a fixed seed or `random_state`. -/

/-- Modelled from the spec: the pure variate stream a *seeded* generator
would produce — a fixed function of the seed alone (the spec asks for "an
explicit seeded generator passed into each stage"; the concrete PRNG is
library code not in src, so any fixed pure function models it). -/
def seededUniform (s k : Nat) : ℚ := ((s + k) % 1009 : ℚ) / 1009

/-- Modelled from the spec: Keras `RandomUniform(minval, maxval, seed)`
maps uniform variates affinely into `[minval, maxval)`.  With
`seed = some s` the variates are the pure seeded stream; with
`seed = none` — the notebook's choice — they come from the process-global
generator state `globalDraws`, which is fresh entropy on every run. -/
def randomUniformDraw (minval maxval : ℚ) (seed : Option Nat)
    (globalDraws : Nat → ℚ) (k : Nat) : ℚ :=
  minval + (maxval - minval) *
    (match seed with
     | some s => seededUniform s k
     | none => globalDraws k)

/-- The notebook's embedding initializer:
`RandomUniform(minval=-0.05, maxval=0.05, seed=None)`.  The `k`-th initial
weight of a run whose global generator state is `globalDraws`. -/
def embeddingInitWeights (globalDraws : Nat → ℚ) (k : Nat) : ℚ :=
  randomUniformDraw (-(1 / 20)) (1 / 20) none globalDraws k

/-! ## Supporting lemmas -/

theorem npUnique_perm_dedup (l : List String) : List.Perm (npUnique l) l.dedup :=
  List.perm_insertionSort _ l.dedup

theorem npUnique_nodup (l : List String) : (npUnique l).Nodup :=
  ((npUnique_perm_dedup l).nodup_iff).mpr l.nodup_dedup

theorem mem_npUnique {l : List String} {s : String} : s ∈ npUnique l ↔ s ∈ l := by
  rw [(npUnique_perm_dedup l).mem_iff, List.mem_dedup]

theorem wordIndexList_perm (texts : List String) :
    List.Perm (wordIndexList texts) (fitTokens texts).dedup := by
  have h := (List.perm_insertionSort (fun x y : String × Nat => y.2 ≤ x.2)
    (wordCounts (fitTokens texts))).map Prod.fst
  simpa [wordIndexList, sortByCountDesc, wordCounts, List.map_map, Function.comp_def] using h

theorem wordIndexList_nodup (texts : List String) : (wordIndexList texts).Nodup :=
  ((wordIndexList_perm texts).nodup_iff).mpr (fitTokens texts).nodup_dedup

theorem mem_wordIndexList {texts : List String} {w : String} :
    w ∈ wordIndexList texts ↔ w ∈ fitTokens texts := by
  rw [(wordIndexList_perm texts).mem_iff, List.mem_dedup]

theorem entitiesIndexGet_of_mem {texts : List String} {w : String}
    (h : w ∈ wordIndexList texts) :
    entitiesIndexGet texts w = some ((wordIndexList texts).indexOf w + 1) :=
  if_pos h

theorem entitiesIndexGet_eq_some {texts : List String} {w : String} {i : Nat}
    (h : entitiesIndexGet texts w = some i) :
    w ∈ wordIndexList texts ∧ i = (wordIndexList texts).indexOf w + 1 := by
  by_cases hm : w ∈ wordIndexList texts
  · rw [entitiesIndexGet_of_mem hm] at h
    exact ⟨hm, (Option.some_injective _ h).symm⟩
  · simp [entitiesIndexGet, hm] at h

theorem entitiesIndexGet_bounds {texts : List String} {w : String} {i : Nat}
    (h : entitiesIndexGet texts w = some i) : 1 ≤ i ∧ i ≤ vocabSize texts := by
  obtain ⟨hm, hi⟩ := entitiesIndexGet_eq_some h
  refine ⟨by omega, ?_⟩
  have := List.indexOf_lt_length.mpr hm
  unfold vocabSize
  omega

theorem entitiesIndexGet_inj {texts : List String} {w₁ w₂ : String} {i : Nat}
    (h₁ : entitiesIndexGet texts w₁ = some i)
    (h₂ : entitiesIndexGet texts w₂ = some i) : w₁ = w₂ := by
  obtain ⟨hm₁, hi₁⟩ := entitiesIndexGet_eq_some h₁
  obtain ⟨hm₂, hi₂⟩ := entitiesIndexGet_eq_some h₂
  exact (List.indexOf_inj hm₁ hm₂).mp (by omega)

theorem entitiesIndexGet_surj (texts : List String) {i : Nat}
    (h₂ : i ≤ vocabSize texts) (h₁ : 1 ≤ i) :
    ∃ w ∈ wordIndexList texts, entitiesIndexGet texts w = some i := by
  have hlt : i - 1 < (wordIndexList texts).length := by
    unfold vocabSize at h₂; omega
  refine ⟨(wordIndexList texts).get ⟨i - 1, hlt⟩, List.get_mem _ _ hlt, ?_⟩
  rw [entitiesIndexGet_of_mem (List.get_mem _ _ hlt)]
  have hidx := List.indexOf_getElem (wordIndexList_nodup texts) (i - 1) hlt
  simp only [List.get_eq_getElem, hidx]
  congr 1
  omega

theorem fitTokens_of_singleton {texts : List String}
    (h : ∀ e ∈ texts, tokensOf e = [toLowerStr e]) :
    fitTokens texts = texts.map toLowerStr := by
  induction texts with
  | nil => rfl
  | cons a l ih =>
      have ha := h a (List.mem_cons_self a l)
      have hl := ih (fun e he => h e (List.mem_cons_of_mem a he))
      simp [fitTokens, List.flatMap_cons, ha] at *
      simp [hl]

theorem toLower_mem_wordIndexList {ts : List Triple}
    (hsing : ∀ e ∈ entities ts, tokensOf e = [toLowerStr e])
    {e : String} (he : e ∈ entityStrings ts) :
    toLowerStr e ∈ wordIndexList (entities ts) := by
  rw [mem_wordIndexList, fitTokens_of_singleton hsing]
  exact List.mem_map_of_mem _ (mem_npUnique.mpr he)

theorem encode_surj_aux {ts : List Triple}
    (hsing : ∀ e ∈ entities ts, tokensOf e = [toLowerStr e])
    {i : Nat} (h₂ : i ≤ vocabSize (entities ts)) (h₁ : 1 ≤ i) :
    ∃ e ∈ entityStrings ts, encodeEntity (entities ts) e = some i := by
  obtain ⟨w, hw, hwi⟩ := entitiesIndexGet_surj _ h₂ h₁
  have hw2 : w ∈ (entities ts).map toLowerStr := by
    rw [← fitTokens_of_singleton hsing]
    exact mem_wordIndexList.mp hw
  obtain ⟨e, he, hew⟩ := List.mem_map.mp hw2
  exact ⟨e, mem_npUnique.mp he, by rw [encodeEntity, hew]; exact hwi⟩

theorem sum_oneHotRow_eq_count (r : String) (l : List String) :
    (oneHotRow l r).sum = l.count r := by
  induction l with
  | nil => rfl
  | cons c l ih =>
      by_cases hc : c = r <;>
        simp [oneHotRow, List.count_cons, hc, List.sum_cons] <;>
        simp [oneHotRow] at ih <;> omega

/-! ## Claim theorems -/

/-- Claim C6 counterexample: the claim quantifies over every input
triples file, but the vocabulary is built by a Tokenizer with
`split=" "`, so for a legal tab-separated file containing the entity
string `"a b"` the code splits it into two tokens: the entity string
itself — although it appears as a head — is assigned no index at all
(`entities_index.get` yields `None`), and the vocabulary carries 3
indices for only 2 distinct (lowercased) entity strings, so the mapping
is not a bijection from distinct lowercased entity strings onto
`[1, N_entities]`. -/
theorem vocab_bijection_fails_on_spaced_entity :
    "a b" ∈ entityStrings [⟨"a b", "r", "c"⟩]
    ∧ encodeEntity (entities [⟨"a b", "r", "c"⟩]) "a b" = none
    ∧ vocabSize (entities [⟨"a b", "r", "c"⟩]) = 3
    ∧ (entityStrings [⟨"a b", "r", "c"⟩]).dedup.length = 2 := by decide

/-- Claim C6 as amended: for every input triples list whose entity
strings are single Tokenizer tokens (contain no `" "` split separator —
true of the dataset's entity codes), every entity string appearing as
head or tail is assigned exactly one integer index by the encoder
(`encodeEntity` is a function, and the index exists and lies in
`[1, N_entities]`), and the vocabulary mapping is a bijection from
distinct lowercased entity strings onto the contiguous range
`[1, N_entities]`: it is injective up to lowercasing and every index in
the range is hit. -/
theorem vocab_bijection (ts : List Triple)
    (hsing : ∀ e ∈ entities ts, tokensOf e = [toLowerStr e]) :
    (∀ e ∈ entityStrings ts, ∃ i, encodeEntity (entities ts) e = some i
        ∧ 1 ≤ i ∧ i ≤ vocabSize (entities ts))
    ∧ (∀ e₁ ∈ entityStrings ts, ∀ e₂ ∈ entityStrings ts, ∀ i,
        encodeEntity (entities ts) e₁ = some i →
        encodeEntity (entities ts) e₂ = some i → toLowerStr e₁ = toLowerStr e₂)
    ∧ (∀ i, i ≤ vocabSize (entities ts) → 1 ≤ i →
        ∃ e ∈ entityStrings ts, encodeEntity (entities ts) e = some i) := by
  refine ⟨?_, ?_, ?_⟩
  · intro e he
    have hm := entitiesIndexGet_of_mem (toLower_mem_wordIndexList hsing he)
    exact ⟨_, hm, entitiesIndexGet_bounds hm⟩
  · intro e₁ _ e₂ _ i hi₁ hi₂
    exact entitiesIndexGet_inj hi₁ hi₂
  · intro i h₂ h₁
    exact encode_surj_aux hsing h₂ h₁

/-- Witness for C6 on a two-triple dataset with a repeated, mixed-case
entity. -/
theorem vocab_bijection_witness :
    (∀ e ∈ entities [⟨"Pen", "fa", "chr"⟩, ⟨"chr", "br", "alf"⟩],
        tokensOf e = [toLowerStr e])
    ∧ ((∀ e ∈ entityStrings [⟨"Pen", "fa", "chr"⟩, ⟨"chr", "br", "alf"⟩],
          ∃ i, encodeEntity (entities [⟨"Pen", "fa", "chr"⟩, ⟨"chr", "br", "alf"⟩]) e = some i
            ∧ 1 ≤ i ∧ i ≤ vocabSize (entities [⟨"Pen", "fa", "chr"⟩, ⟨"chr", "br", "alf"⟩]))
      ∧ (∀ e₁ ∈ entityStrings [⟨"Pen", "fa", "chr"⟩, ⟨"chr", "br", "alf"⟩],
          ∀ e₂ ∈ entityStrings [⟨"Pen", "fa", "chr"⟩, ⟨"chr", "br", "alf"⟩], ∀ i,
          encodeEntity (entities [⟨"Pen", "fa", "chr"⟩, ⟨"chr", "br", "alf"⟩]) e₁ = some i →
          encodeEntity (entities [⟨"Pen", "fa", "chr"⟩, ⟨"chr", "br", "alf"⟩]) e₂ = some i →
          toLowerStr e₁ = toLowerStr e₂)
      ∧ (∀ i, i ≤ vocabSize (entities [⟨"Pen", "fa", "chr"⟩, ⟨"chr", "br", "alf"⟩]) → 1 ≤ i →
          ∃ e ∈ entityStrings [⟨"Pen", "fa", "chr"⟩, ⟨"chr", "br", "alf"⟩],
            encodeEntity (entities [⟨"Pen", "fa", "chr"⟩, ⟨"chr", "br", "alf"⟩]) e = some i)) :=
  ⟨by decide, vocab_bijection _ (by decide)⟩

/-- Claim C4 counterexample: the notebook's encoder is
`entities_index.get(str(x).lower())`, Python `dict.get`, whose only
outcome for an absent key is the null index `None` (`none`); the
`Option Nat` result type of the translated `encodeEntity` has no error
outcome at all.  Concretely, looking up the out-of-vocabulary string
`"zzz"` silently yields the null index instead of failing with a
`MissingEntity` error. -/
theorem encode_missing_entity_silent_null :
    encodeEntity (entities [⟨"pen", "fa", "chr"⟩]) "zzz" = none := by decide

/-- Claim C4 as amended: for every vocabulary and every string whose
lowercasing is absent from it, the encoder silently produces the null
(`None`) index rather than failing with a `MissingEntity` error (the
notebook's subsequent `.astype('int')` is what blows up later, with a
generic conversion error outside the encoder). -/
theorem encode_absent_silently_null (texts : List String) (x : String)
    (h : toLowerStr x ∉ wordIndexList texts) :
    encodeEntity texts x = none := if_neg h

/-- Witness for the amended C4 at a concrete vocabulary and string. -/
theorem encode_absent_silently_null_witness :
    (toLowerStr "qux" ∉ wordIndexList (entities [⟨"pen", "fa", "chr"⟩]))
    ∧ encodeEntity (entities [⟨"pen", "fa", "chr"⟩]) "qux" = none :=
  ⟨by decide, encode_absent_silently_null _ _ (by decide)⟩

/-- Claim C3: the `Embedding` layer is built with
`input_dim = len(entities_index)` rows (`vocabSize`), while the encoder
emits vocabulary indices in `[1, vocabSize]`.  Hence (1) some entity of
the dataset is encoded to the index `vocabSize` itself, which (2) lies
outside the valid 0-based row range `[0, vocabSize)` — its lookup fails;
(3) the visualization cell reads the entity with index `i` at matrix row
`i - 1`, so (4) every row `r < vocabSize` is read for the entity with
index `r + 1` — row `0` holds the entity with index `1`, and no row is
reserved for an index `0`. -/
theorem embedding_index_off_by_one (ts : List Triple) (dim : Nat)
    (M : Nat → Fin dim → ℝ)
    (hne : 0 < vocabSize (entities ts))
    (hsing : ∀ e ∈ entities ts, tokensOf e = [toLowerStr e]) :
    (∃ e ∈ entityStrings ts,
        encodeEntity (entities ts) e = some (vocabSize (entities ts)))
    ∧ embLookup (vocabSize (entities ts)) dim M (vocabSize (entities ts)) = none
    ∧ (∀ w i, entitiesIndexGet (entities ts) w = some i →
        visRowOf (entities ts) w = some (i - 1))
    ∧ (∀ r, r < vocabSize (entities ts) →
        ∃ w, entitiesIndexGet (entities ts) w = some (r + 1)
          ∧ visRowOf (entities ts) w = some r) := by
  refine ⟨?_, ?_, ?_, ?_⟩
  · exact encode_surj_aux hsing (le_refl _) hne
  · exact if_neg (lt_irrefl _)
  · intro w i h
    rw [visRowOf, h]; rfl
  · intro r hr
    obtain ⟨w, _, hwi⟩ := entitiesIndexGet_surj (entities ts)
      (show r + 1 ≤ vocabSize (entities ts) by omega) (by omega)
    refine ⟨w, hwi, by rw [visRowOf, hwi]; rfl⟩

/-- Witness for C3 on a concrete two-entity dataset. -/
theorem embedding_index_off_by_one_witness :
    (0 < vocabSize (entities [⟨"pen", "fa", "chr"⟩]))
    ∧ (∀ e ∈ entities [⟨"pen", "fa", "chr"⟩], tokensOf e = [toLowerStr e])
    ∧ ((∃ e ∈ entityStrings [⟨"pen", "fa", "chr"⟩],
          encodeEntity (entities [⟨"pen", "fa", "chr"⟩]) e
            = some (vocabSize (entities [⟨"pen", "fa", "chr"⟩])))
      ∧ embLookup (vocabSize (entities [⟨"pen", "fa", "chr"⟩])) 1 (fun _ _ => (0 : ℝ))
          (vocabSize (entities [⟨"pen", "fa", "chr"⟩])) = none
      ∧ (∀ w i, entitiesIndexGet (entities [⟨"pen", "fa", "chr"⟩]) w = some i →
          visRowOf (entities [⟨"pen", "fa", "chr"⟩]) w = some (i - 1))
      ∧ (∀ r, r < vocabSize (entities [⟨"pen", "fa", "chr"⟩]) →
          ∃ w, entitiesIndexGet (entities [⟨"pen", "fa", "chr"⟩]) w = some (r + 1)
            ∧ visRowOf (entities [⟨"pen", "fa", "chr"⟩]) w = some r)) :=
  ⟨by decide, by decide, embedding_index_off_by_one _ 1 _ (by decide) (by decide)⟩

/-- Claim C10: for every example of the encoded dataset, the one-hot
relation encoding produced by `pd.get_dummies` has exactly one relation
column set to `1`: the indicator columns of each row sum to exactly 1. -/
theorem one_hot_row_sums_to_one (ts : List Triple) (t : Triple) (ht : t ∈ ts) :
    (oneHotRow (relationCategories (ts.map Triple.relation)) t.relation).sum = 1 := by
  rw [sum_oneHotRow_eq_count]
  exact List.count_eq_one_of_mem (npUnique_nodup _)
    (mem_npUnique.mpr (List.mem_map_of_mem _ ht))

/-- Witness for C10 at a concrete dataset with a repeated relation. -/
theorem one_hot_row_sums_to_one_witness :
    (⟨"pen", "fa", "chr"⟩ : Triple) ∈
        [⟨"pen", "fa", "chr"⟩, ⟨"chr", "fa", "alf"⟩, ⟨"alf", "br", "pen"⟩]
    ∧ (oneHotRow (relationCategories
          ([⟨"pen", "fa", "chr"⟩, ⟨"chr", "fa", "alf"⟩,
            (⟨"alf", "br", "pen"⟩ : Triple)].map Triple.relation))
        (Triple.relation ⟨"pen", "fa", "chr"⟩)).sum = 1 :=
  ⟨by decide, one_hot_row_sums_to_one _ _ (by decide)⟩

/-- Claim C7: in the notebook's 20-iteration oversampling loop, each
iteration draws a `sampleCount`-sized (30%, rounded) random sample of the
current accumulated dataset and appends it, starting from the 112 rows
recorded by `families.shape`.  The size trajectory is exactly the chain
below — strictly increasing at every one of the 20 iterations, ending at
the notebook's recorded augmented size 21367 — and an augmentation step
never decreases the size from any starting size. -/
theorem augmentation_strictly_grows :
    augSizes 112 = [112, 146, 190, 247, 321, 417, 542, 705, 917, 1192, 1550,
      2015, 2619, 3405, 4427, 5755, 7481, 9725, 12643, 16436, 21367]
    ∧ (∀ k, k < 20 → augIter k 112 < augIter (k + 1) 112)
    ∧ (∀ n, n ≤ augStep n) :=
  ⟨by decide, by decide, fun n => Nat.le_add_right n _⟩

/-- Witness for C7's bounded-iteration conjunct at the first iteration. -/
theorem augmentation_strictly_grows_witness :
    augIter 0 112 < augIter 1 112 ∧ 5 ≤ augStep 5 :=
  ⟨augmentation_strictly_grows.2.1 0 (by decide),
    augmentation_strictly_grows.2.2 5⟩

theorem testCount_le (n : Nat) : testCount n ≤ n := by
  unfold testCount; omega

/-- Claim C8: the two nested `train_test_split(test_size=0.1)` calls
partition the shuffled augmented dataset.  For any dataframe row-label
list `idx` (distinct labels), any permutation `s₁` of it (the shuffle
feeding the first split) and any permutation `s₂` of the first split's
train side (the shuffle feeding the second split): the test split has
`ceil(n/10)` rows, the validation split has `ceil((n - ceil(n/10))/10)`
rows, the three split sizes sum to `n`, and the three splits are pairwise
disjoint as row-label sets. -/
theorem split_partition (idx s₁ s₂ : List Nat) (hnd : idx.Nodup)
    (h₁ : List.Perm s₁ idx) (h₂ : List.Perm s₂ (splitRest s₁)) :
    (splitTest s₁).length = testCount idx.length
    ∧ (splitTest s₂).length = testCount (idx.length - testCount idx.length)
    ∧ (splitRest s₂).length + (splitTest s₂).length + (splitTest s₁).length
        = idx.length
    ∧ (splitTest s₁).Disjoint (splitTest s₂)
    ∧ (splitTest s₁).Disjoint (splitRest s₂)
    ∧ (splitTest s₂).Disjoint (splitRest s₂) := by
  have hs₁nd : s₁.Nodup := (h₁.nodup_iff).mpr hnd
  have hs₁len : s₁.length = idx.length := h₁.length_eq
  have hrest_nd : (splitRest s₁).Nodup :=
    (List.drop_sublist _ _).nodup hs₁nd
  have hs₂nd : s₂.Nodup := (h₂.nodup_iff).mpr hrest_nd
  have hs₂len : s₂.length = idx.length - testCount idx.length := by
    rw [h₂.length_eq, splitRest, List.length_drop, hs₁len]
  have htc : testCount idx.length ≤ idx.length := testCount_le _
  have htc2 : testCount (idx.length - testCount idx.length)
      ≤ idx.length - testCount idx.length := testCount_le _
  have hd₁ : (splitTest s₁).Disjoint (splitRest s₁) :=
    List.disjoint_take_drop hs₁nd (le_refl _)
  have hsub : ∀ a ∈ s₂, a ∈ splitRest s₁ := fun a ha => h₂.subset ha
  refine ⟨?_, ?_, ?_, ?_, ?_, ?_⟩
  · rw [splitTest, List.length_take, hs₁len]
    omega
  · rw [splitTest, List.length_take, hs₂len]
    omega
  · rw [splitTest, splitTest, splitRest, List.length_take, List.length_drop,
      List.length_take, hs₁len, hs₂len]
    omega
  · intro a ha hb
    exact hd₁ ha (hsub a (List.take_subset _ _ hb))
  · intro a ha hb
    exact hd₁ ha (hsub a (List.drop_subset _ _ hb))
  · exact List.disjoint_take_drop hs₂nd (le_refl _)

/-- Witness for C8 on a 12-row index set with concrete shuffles. -/
theorem split_partition_witness :
    ([0, 1, 2, 3, 4, 5, 6, 7, 8, 9, 10, 11] : List Nat).Nodup
    ∧ List.Perm [11, 10, 9, 8, 7, 6, 5, 4, 3, 2, 1, 0]
        [0, 1, 2, 3, 4, 5, 6, 7, 8, 9, 10, 11]
    ∧ List.Perm [0, 1, 2, 3, 4, 5, 6, 7, 8, 9]
        (splitRest [11, 10, 9, 8, 7, 6, 5, 4, 3, 2, 1, 0])
    ∧ ((splitTest [11, 10, 9, 8, 7, 6, 5, 4, 3, 2, 1, 0]).length
          = testCount ([0, 1, 2, 3, 4, 5, 6, 7, 8, 9, 10, 11] : List Nat).length
      ∧ (splitTest [0, 1, 2, 3, 4, 5, 6, 7, 8, 9]).length
          = testCount (([0, 1, 2, 3, 4, 5, 6, 7, 8, 9, 10, 11] : List Nat).length
              - testCount ([0, 1, 2, 3, 4, 5, 6, 7, 8, 9, 10, 11] : List Nat).length)
      ∧ (splitRest [0, 1, 2, 3, 4, 5, 6, 7, 8, 9]).length
            + (splitTest [0, 1, 2, 3, 4, 5, 6, 7, 8, 9]).length
            + (splitTest [11, 10, 9, 8, 7, 6, 5, 4, 3, 2, 1, 0]).length
          = ([0, 1, 2, 3, 4, 5, 6, 7, 8, 9, 10, 11] : List Nat).length
      ∧ (splitTest [11, 10, 9, 8, 7, 6, 5, 4, 3, 2, 1, 0]).Disjoint
          (splitTest [0, 1, 2, 3, 4, 5, 6, 7, 8, 9])
      ∧ (splitTest [11, 10, 9, 8, 7, 6, 5, 4, 3, 2, 1, 0]).Disjoint
          (splitRest [0, 1, 2, 3, 4, 5, 6, 7, 8, 9])
      ∧ (splitTest [0, 1, 2, 3, 4, 5, 6, 7, 8, 9]).Disjoint
          (splitRest [0, 1, 2, 3, 4, 5, 6, 7, 8, 9])) :=
  ⟨by decide, by decide, by decide,
    split_partition _ _ _ (by decide) (by decide) (by decide)⟩

/-- `GlobalAveragePooling1D` over two vectors is commutative: the
elementwise mean does not depend on the order of head and tail. -/
theorem averagePool_comm (dim : Nat) (v w : Fin dim → ℝ) :
    averagePool dim v w = averagePool dim w v := by
  funext d
  simp [averagePool, add_comm]

/-- Claim C2: the forward computation is symmetric under swapping the
head and tail inputs — for every pair of entity indices and every value
of the embedding matrix and classifier weights, `score(h, t)` equals
`score(t, h)` componentwise (including the failure cases, which agree as
well). -/
theorem forward_symmetric (numRows dim nOut : Nat) (M : Nat → Fin dim → ℝ)
    (W : Fin nOut → Fin dim → ℝ) (b : Fin nOut → ℝ) (h t : Nat) :
    forwardScores numRows dim nOut M W b h t
      = forwardScores numRows dim nOut M W b t h := by
  unfold forwardScores
  cases hh : embLookup numRows dim M h <;> cases ht : embLookup numRows dim M t <;>
    try rfl
  exact congrArg (fun v => some (fun r => sigmoid (denseLayer dim nOut W b v r)))
    (averagePool_comm dim _ _)

theorem sigmoid_mem_unit (x : ℝ) : 0 < sigmoid x ∧ sigmoid x < 1 := by
  unfold sigmoid
  have hx : 0 < Real.exp (-x) := Real.exp_pos _
  constructor
  · positivity
  · rw [div_lt_one (by linarith)]
    linarith

/-- Claim C9: whenever the forward computation produces an output vector
(i.e. both lookups are in range), every component of that vector lies
strictly inside the open interval `(0, 1)`, for arbitrary finite
embedding matrix and classifier weights. -/
theorem forward_scores_in_unit (numRows dim nOut : Nat) (M : Nat → Fin dim → ℝ)
    (W : Fin nOut → Fin dim → ℝ) (b : Fin nOut → ℝ) (h t : Nat)
    (s : Fin nOut → ℝ)
    (hs : forwardScores numRows dim nOut M W b h t = some s) (r : Fin nOut) :
    0 < s r ∧ s r < 1 := by
  unfold forwardScores at hs
  cases hh : embLookup numRows dim M h <;> rw [hh] at hs
  · exact Option.noConfusion hs
  · cases ht : embLookup numRows dim M t <;> rw [ht] at hs
    · exact Option.noConfusion hs
    · rw [Option.some_inj] at hs
      subst hs
      exact sigmoid_mem_unit _

/-- Witness for C9: on a one-entity, one-dimension, one-relation model
with zero weights, the forward computation succeeds and the output
component is strictly between 0 and 1. -/
theorem forward_scores_in_unit_witness :
    (forwardScores 1 1 1 (fun _ _ => (0 : ℝ)) (fun _ _ => 0) (fun _ => 0) 0 0
        = some (fun r => sigmoid (denseLayer 1 1 (fun _ _ => 0) (fun _ => 0)
            (averagePool 1 (fun _ => (0 : ℝ)) (fun _ => (0 : ℝ))) r)))
    ∧ (0 < sigmoid (denseLayer 1 1 (fun _ _ => (0 : ℝ)) (fun _ => 0)
          (averagePool 1 (fun _ => (0 : ℝ)) (fun _ => (0 : ℝ))) 0)
      ∧ sigmoid (denseLayer 1 1 (fun _ _ => (0 : ℝ)) (fun _ => 0)
          (averagePool 1 (fun _ => (0 : ℝ)) (fun _ => (0 : ℝ))) 0) < 1) :=
  ⟨rfl, forward_scores_in_unit 1 1 1 (fun _ _ => 0) (fun _ _ => 0) (fun _ => 0)
    0 0 _ rfl 0⟩

theorem forwardScores_out_of_range (numRows dim nOut : Nat)
    (M : Nat → Fin dim → ℝ) (W : Fin nOut → Fin dim → ℝ) (b : Fin nOut → ℝ)
    {h t : Nat} (hout : numRows ≤ h ∨ numRows ≤ t) :
    forwardScores numRows dim nOut M W b h t = none := by
  rcases hout with h1 | h1
  · unfold forwardScores
    rw [show embLookup numRows dim M h = none from if_neg (by omega)]
  · unfold forwardScores
    rw [show embLookup numRows dim M t = none from if_neg (by omega)]
    cases embLookup numRows dim M h <;> rfl

/-- Claim C1: if a training batch contains an entity index outside
`[0, numRows)` in either position, the embedding lookup fails — the
whole batch's forward computation returns the error outcome `none`, so
the error is fatal to the run — and the lookup never silently clamps:
every out-of-range index yields the error outcome, not some in-range
row. -/
theorem batch_out_of_range_fatal (numRows dim nOut : Nat)
    (M : Nat → Fin dim → ℝ) (W : Fin nOut → Fin dim → ℝ) (b : Fin nOut → ℝ)
    (batch : List (Nat × Nat)) (p : Nat × Nat) (hp : p ∈ batch)
    (hout : numRows ≤ p.1 ∨ numRows ≤ p.2) :
    batchForwardScores numRows dim nOut M W b batch = none
    ∧ (∀ i, numRows ≤ i → embLookup numRows dim M i = none) := by
  refine ⟨?_, fun i hi => if_neg (by omega)⟩
  induction batch with
  | nil => cases hp
  | cons q qs ih =>
      rcases List.mem_cons.mp hp with rfl | hq
      · unfold batchForwardScores
        rw [forwardScores_out_of_range numRows dim nOut M W b hout]
      · unfold batchForwardScores
        rw [ih hq]
        cases forwardScores numRows dim nOut M W b q.1 q.2 <;> rfl

/-- Witness for C1: a one-row batch holding the index `numRows = 2`
itself (the off-by-one index the encoder actually emits) aborts the
batch. -/
theorem batch_out_of_range_fatal_witness :
    ((2, 0) : Nat × Nat) ∈ [((2, 0) : Nat × Nat)]
    ∧ (2 ≤ (((2, 0) : Nat × Nat)).1 ∨ 2 ≤ (((2, 0) : Nat × Nat)).2)
    ∧ (batchForwardScores 2 1 1 (fun _ _ => (0 : ℝ)) (fun _ _ => 0) (fun _ => 0)
          [(2, 0)] = none
      ∧ (∀ i, 2 ≤ i → embLookup 2 1 (fun _ _ => (0 : ℝ)) i = none)) :=
  ⟨by decide, Or.inl (by decide),
    batch_out_of_range_fatal 2 1 1 (fun _ _ => 0) (fun _ _ => 0) (fun _ => 0)
      [(2, 0)] (2, 0) (by decide) (Or.inl (by decide))⟩

/-- Claim C5 counterexample: the notebook passes `seed=None` to
`RandomUniform` (and uses no `random_state` in `df.sample` or
`train_test_split`, and no fixed shuffle seed in `fit`), so a run's
weights are drawn from the process-global generator state, which no
user-fixed seed determines.  Two runs whose ambient generator states
differ — here the constant-0 and constant-1/2 variate streams — already
produce different initial embedding weights, so runs are not bit-for-bit
reproducible. -/
theorem run_initial_weights_differ :
    embeddingInitWeights (fun _ => 0) 0 ≠ embeddingInitWeights (fun _ => 1 / 2) 0 := by
  simp only [embeddingInitWeights, randomUniformDraw]
  norm_num

/-- Claim C5 as amended: the pipeline's weights are a function of the
ambient global generator state, not of a user-fixed seed: runs whose
global states coincide produce identical weights, and a draw made with an
explicit seed (which the notebook never passes) is independent of the
global state — which is what fixed-seed determinism would require. -/
theorem weights_function_of_global_state :
    (∀ g₁ g₂ : Nat → ℚ, (∀ k, g₁ k = g₂ k) →
        ∀ k, embeddingInitWeights g₁ k = embeddingInitWeights g₂ k)
    ∧ (∀ (mn mx : ℚ) (s : Nat) (g₁ g₂ : Nat → ℚ) (k : Nat),
        randomUniformDraw mn mx (some s) g₁ k
          = randomUniformDraw mn mx (some s) g₂ k) := by
  constructor
  · intro g₁ g₂ hg k
    simp [embeddingInitWeights, randomUniformDraw, hg k]
  · intro mn mx s g₁ g₂ k
    rfl

/-- Witness for the amended C5 at the constant-zero generator state. -/
theorem weights_function_of_global_state_witness :
    (∀ k : Nat, (fun _ : Nat => (0 : ℚ)) k = (fun _ : Nat => (0 : ℚ)) k)
    ∧ embeddingInitWeights (fun _ => 0) 0 = embeddingInitWeights (fun _ => 0) 0 :=
  ⟨fun _ => rfl, weights_function_of_global_state.1 _ _ (fun _ => rfl) 0⟩

end FasttextBlog
